import Mathlib

/-!
# Client registry, pause gate and shutdown barrier of `server.c`

A shallow embedding of the thread-lifecycle core of `src/server.c`:

* the global variables (`thread_list_head`, `accepting_clients`, `s_vars`,
  `c_vars`) and the heap of `client_t` blocks form the `Server` state;
* every critical section of the source is one state function
  (`run_client_insert`, `thread_cleanup_unlink`, ...);
* a thread is described by the sequence of atomic `Action`s it performs;
  `run_client` computes that sequence from what the thread observes;
* `Sys.step` interleaves the orchestrator and the workers.
-/

namespace Server2

/-! ## Data model -/

/-- Address of a heap block holding a `client_t`.  `NULL` is `Option.none`. -/
abbrev Ptr := Nat

/-- The record `client_t` (server.c lines 42-49). -/
structure client_t where
  thread : Nat
  cxstr : Nat
  prev : Option Ptr
  next : Option Ptr
deriving DecidableEq, Repr

/-- The record `server_control_t` (lines 22-26); the mutex and the condition
variable appear as `Action`s, not as data. -/
structure server_control_t where
  num_client_threads : Int
deriving DecidableEq, Repr

/-- The record `client_control_t` (lines 32-36). -/
structure client_control_t where
  stopped : Int
deriving DecidableEq, Repr

/-- Heap of `client_t` blocks: `none` is an address that is not allocated. -/
abbrev Heap := Ptr → Option client_t

/-- Writing a block of the heap. -/
def Heap.store (h : Heap) (p : Ptr) (c : client_t) : Heap :=
  fun q => if q = p then some c else h q

/-- Releasing a block of the heap (`free`). -/
def Heap.release (h : Heap) (p : Ptr) : Heap :=
  fun q => if q = p then none else h q

/-- The global variables of server.c (lines 61-67) together with the heap. -/
structure Server where
  heap : Heap
  thread_list_head : Option Ptr
  accepting_clients : Int
  s_vars : server_control_t
  c_vars : client_control_t

/-- The initial values of the globals (lines 61-67): empty list, accepting,
no client threads, not stopped. -/
def Server.init : Server where
  heap := fun _ => none
  thread_list_head := none
  accepting_clients := 1
  s_vars := { num_client_threads := 0 }
  c_vars := { stopped := 0 }

/-- The value of a C `int` after an arithmetic result `x` (32-bit two's
complement wrap-around). -/
def wrap_int (x : Int) : Int := (x + 2 ^ 31) % 2 ^ 32 - 2 ^ 31

/-! ## Registry: allocation, insertion, unlinking -/

/-- The allocation part of `client_constructor` (lines 108-112 and the thread
id written by `pthread_create`, line 116): `malloc` returns the block at
`new_client` whose previous content `garbage` is indeterminate; only `cxstr`
and `thread` are written, `prev` and `next` keep the indeterminate content. -/
def client_constructor (s : Server) (new_client : Ptr) (garbage : client_t)
    (cxstr : Nat) (thread : Nat) : Server :=
  let block : client_t := { garbage with cxstr := cxstr, thread := thread }
  { s with heap := s.heap.store new_client block }

/-- The critical section of `run_client` under `thread_list_mutex`
(lines 148-160): insertion at the front of the list.  `none` is a dereference
of an unallocated block. -/
def run_client_insert (s : Server) (client : Ptr) : Option Server :=
  match s.thread_list_head with
  | none =>
    -- thread_list_head = client;
    some { s with thread_list_head := some client }
  | some head =>
    match s.heap client with
    | none => none
    | some c =>
      -- client->next = thread_list_head; client->prev = NULL;
      let h1 := s.heap.store client ({ c with next := some head, prev := none })
      match h1 head with
      | none => none
      | some hd =>
        -- thread_list_head->prev = client; thread_list_head = client;
        some { s with heap := h1.store head ({ hd with prev := some client }),
                      thread_list_head := some client }

/-- The critical section of `thread_cleanup` under `thread_list_mutex`
(lines 216-235): the four-case unlink.  `none` is a dereference of `NULL` or
of an unallocated block. -/
def thread_cleanup_unlink (s : Server) (client : Ptr) : Option Server :=
  match s.heap client with
  | none => none
  | some c =>
    match c.prev, c.next with
    | none, none =>
      -- only member: thread_list_head = NULL;
      some { s with thread_list_head := none }
    | some p, none =>
      -- end of the list: client->prev->next = NULL;
      match s.heap p with
      | none => none
      | some pc => some { s with heap := s.heap.store p ({ pc with next := none }) }
    | prev, some n =>
      if s.thread_list_head = some client then
        -- head of the list: thread_list_head = client->next;
        some { s with thread_list_head := some n }
      else
        -- middle: client->prev->next = client->next;
        --         client->next->prev = client->prev;
        match prev with
        | none => none
        | some p =>
          match s.heap p with
          | none => none
          | some pc =>
            let h1 := s.heap.store p ({ pc with next := some n })
            match h1 n with
            | none => none
            | some nc =>
              some { s with heap := h1.store n ({ nc with prev := some p }) }

/-- The function `client_destructor` (lines 128-132), when it runs to its end,
as a change of state: `comm_shutdown` changes no variable, `free` releases the
block. -/
def client_destructor (s : Server) (client : Ptr) : Option Server :=
  match s.heap client with
  | none => none
  | some _ => some { s with heap := s.heap.release client }

/-- The handles reached from `start` by following `next` links, at most `fuel`
of them; `none` when the walk does not reach `NULL` within `fuel` steps or
meets an unallocated block. -/
def reachable (h : Heap) : Nat → Option Ptr → Option (List Ptr)
  | _, none => some []
  | 0, some _ => none
  | fuel + 1, some p =>
    match h p with
    | none => none
    | some c => (reachable h fuel c.next).map (fun l => p :: l)

/-- Events of the registry: a handle is allocated by `client_constructor`
(with the indeterminate content of its block) and inserted by `run_client`,
or it is unlinked by `thread_cleanup`. -/
inductive RegistryEvent where
  | register (client : Ptr) (garbage : client_t)
  | unregister (client : Ptr)

/-- Effect of one registry event on the server state. -/
def RegistryEvent.apply (s : Server) : RegistryEvent → Option Server
  | .register client garbage =>
    run_client_insert (client_constructor s client garbage client client) client
  | .unregister client => thread_cleanup_unlink s client

/-- Effect of a sequence of registry events, left to right. -/
def registry_run (s : Server) : List RegistryEvent → Option Server
  | [] => some s
  | e :: es => (e.apply s).bind (fun s1 => registry_run s1 es)

/-- The handles registered and not yet unregistered after a sequence of
events, most recent first, starting from the handles `live`. -/
def registered (live : List Ptr) : List RegistryEvent → List Ptr
  | [] => live
  | .register client _ :: es => registered (client :: live) es
  | .unregister client :: es => registered (live.erase client) es


/-! ## Shutdown barrier counter -/

/-- The critical section of `run_client` under `s_vars.server_mutex`
(lines 163-165): `s_vars.num_client_threads++`. -/
def run_client_increment (v : server_control_t) : server_control_t :=
  { v with num_client_threads := wrap_int (v.num_client_threads + 1) }

/-- The critical section of `thread_cleanup` under `s_vars.server_mutex`
(lines 241-251): `s_vars.num_client_threads--`; the broadcast on
`server_cond` when the count is 0 changes no variable. -/
def thread_cleanup_decrement (v : server_control_t) : server_control_t :=
  { v with num_client_threads := wrap_int (v.num_client_threads - 1) }

/-- Lifecycle events of workers as far as the counter is concerned:
`run_client` entered while `accepting_clients` has the value `accepting`,
and `thread_cleanup` of a worker. -/
inductive LifecycleEvent where
  | run_client (accepting : Int) (client : Ptr)
  | thread_cleanup (client : Ptr)

/-- Effect of a lifecycle event on `s_vars`: a rejected `run_client` returns at
line 142 before touching the counter. -/
def LifecycleEvent.apply (v : server_control_t) : LifecycleEvent → server_control_t
  | .run_client accepting _ => if accepting = 0 then v else run_client_increment v
  | .thread_cleanup _ => thread_cleanup_decrement v

/-- The function `client_control_stop` (lines 88-94). -/
def client_control_stop (c : client_control_t) : client_control_t :=
  { c with stopped := 1 }

/-- The function `client_control_release` (lines 97-103); the broadcast wakes
the waiters and changes no variable. -/
def client_control_release (c : client_control_t) : client_control_t :=
  { c with stopped := 0 }

/-- A call of the orchestrator on the gate. -/
inductive GateCall where
  | stop
  | release
deriving DecidableEq, Repr

/-- Effect of one gate call. -/
def GateCall.apply (c : client_control_t) : GateCall → client_control_t
  | .stop => client_control_stop c
  | .release => client_control_release c

/-- Effect of a sequence of gate calls, left to right. -/
def gate_run (c : client_control_t) : List GateCall → client_control_t
  | [] => c
  | k :: ks => gate_run (k.apply c) ks

/-! ## Threads as sequences of atomic actions -/

/-- The three locks of server.c. -/
inductive Mutex where
  | thread_list_mutex
  | server_mutex
  | go_mutex
deriving DecidableEq, Repr

/-- Atomic steps of a thread: lock operations, the critical sections, reads
of shared flags and calls into the external collaborators. -/
inductive Action where
  /-- Call of pthread_mutex_lock. -/
  | lock (m : Mutex)
  /-- Call of pthread_mutex_unlock. -/
  | unlock (m : Mutex)
  /-- Lines 151-158 of run_client. -/
  | list_insert (client : Ptr)
  /-- Line 164 of run_client. -/
  | count_increment
  /-- Call of comm_serve at line 178. -/
  | comm_serve (client : Ptr)
  /-- Evaluation of the loop test at line 81, reading `v` from c_vars.stopped. -/
  | read_stopped (v : Int)
  /-- Entering pthread_cond_wait at line 82: go_mutex is released. -/
  | cond_wait_sleep
  /-- Leaving pthread_cond_wait (wake-up or cancellation): go_mutex is taken again. -/
  | cond_wait_wake
  /-- Call of interpret_command at line 182. -/
  | interpret_command
  /-- Lines 218-233 of thread_cleanup. -/
  | list_unlink (client : Ptr)
  /-- Call of comm_shutdown at line 130, inside client_destructor (line 238). -/
  | comm_shutdown (client : Ptr)
  /-- Call of free at line 131, inside client_destructor (line 238). -/
  | free (client : Ptr)
  /-- Lines 244-249 of thread_cleanup. -/
  | count_decrement
  /-- Call of pthread_cancel at line 203. -/
  | pthread_cancel (thread : Nat)
  /-- Call of db_cleanup at line 432. -/
  | db_cleanup
deriving DecidableEq, Repr

/-- Effect of an atomic action on the globals and the heap.  Lock operations
and external calls leave them alone; a read of `stopped` is possible only
when the variable holds the value read. -/
def Action.exec (s : Server) : Action → Option Server
  | .list_insert client => run_client_insert s client
  | .count_increment => some { s with s_vars := run_client_increment s.s_vars }
  | .read_stopped v => if s.c_vars.stopped = v then some s else none
  | .list_unlink client => thread_cleanup_unlink s client
  | .free client => Server2.client_destructor s client
  | .count_decrement => some { s with s_vars := thread_cleanup_decrement s.s_vars }
  | _ => some s

/-- Effect of a sequence of actions run without interference. -/
def exec_all (s : Server) : List Action → Option Server
  | [] => some s
  | a :: as => (a.exec s).bind (fun s1 => exec_all s1 as)

/-- The function `thread_cleanup` (lines 212-252) as the actions it performs.
`comm_shutdown` (line 130) closes the stream, where a pending cancellation
request may be acted upon; `shutdown_cancelled` tells whether that happens.
The thread then ends inside `comm_shutdown`: `free` (line 131) and the
decrement (lines 241-251) are not reached. -/
def thread_cleanup (client : Ptr) (shutdown_cancelled : Bool) : List Action :=
  [.lock .thread_list_mutex, .list_unlink client, .unlock .thread_list_mutex,
   .comm_shutdown client]
    ++ (if shutdown_cancelled then []
        else [.free client, .lock .server_mutex, .count_decrement, .unlock .server_mutex])

/-- Cleanup handlers pushed in server.c: `thread_cleanup` with its argument
(line 168) and `pthread_mutex_unlock` with its mutex (line 79). -/
inductive Handler where
  | thread_cleanup (client : Ptr)
  | pthread_mutex_unlock (m : Mutex)
deriving DecidableEq, Repr

/-- The actions a handler performs when it is executed; `shutdown_cancelled`
tells whether a pending cancellation request is acted upon in `comm_shutdown`. -/
def Handler.run : Handler → Bool → List Action
  | .thread_cleanup client, shutdown_cancelled =>
    Server2.thread_cleanup client shutdown_cancelled
  | .pthread_mutex_unlock m, _ => [.unlock m]

/-- Whether the thread ends inside the handler: `thread_cleanup` contains a
cancellation point, `pthread_mutex_unlock` does not. -/
def Handler.ends_thread : Handler → Bool → Bool
  | .thread_cleanup _, shutdown_cancelled => shutdown_cancelled
  | .pthread_mutex_unlock _, _ => false

/-- A running thread: its stack of cleanup handlers (top first) and the
actions it has performed so far. -/
structure Thread where
  cleanup_stack : List Handler
  trace : List Action
deriving DecidableEq, Repr

/-- The thread performs the actions `as`. -/
def Thread.emit (t : Thread) (as : List Action) : Thread :=
  { t with trace := t.trace ++ as }

/-- The library call `pthread_cleanup_push`. -/
def pthread_cleanup_push (h : Handler) (t : Thread) : Thread :=
  { t with cleanup_stack := h :: t.cleanup_stack }

/-- The thread acts on a cancellation request at a cancellation point: every
handler on the stack is popped and executed, top first, and the thread ends.
Cancellation is disabled from then on, so the handlers run to completion. -/
def pthread_cancelled (t : Thread) : Thread :=
  { cleanup_stack := [],
    trace := t.trace ++ (t.cleanup_stack.map (fun h => h.run false)).flatten }

/-- The library call `pthread_cleanup_pop`: removes the top handler and, when
`execute` is non-zero, calls it as an ordinary function, with cancellation
still enabled.  The Boolean of the result tells whether the thread ended
inside the handler, acting on a request that was pending
(`shutdown_cancelled`); the handlers left on the stack are then run. -/
def pthread_cleanup_pop (execute : Int) (shutdown_cancelled : Bool) (t : Thread) :
    Thread × Bool :=
  match t.cleanup_stack with
  | [] => (t, false)
  | h :: rest =>
    if execute = 0 then ({ t with cleanup_stack := rest }, false)
    else
      let t1 : Thread :=
        { cleanup_stack := rest, trace := t.trace ++ h.run shutdown_cancelled }
      if h.ends_thread shutdown_cancelled then (pthread_cancelled t1, true)
      else (t1, false)

/-- How a call of `client_control_wait` ends: it returns after `waits` calls
of `pthread_cond_wait` with the gate in state `c`, or the thread is still
inside `pthread_cond_wait` when the observations end. -/
inductive WaitResult where
  | returned (waits : Nat) (c : client_control_t)
  | blocked (waits : Nat)
deriving DecidableEq, Repr

/-- The loop of `client_control_wait` (lines 81-83).  The gate is in state `c`
at the loop test; each element of `wakeups` lists the gate calls the
orchestrator makes while the thread sleeps in one `pthread_cond_wait`. -/
def client_control_wait_loop (waits : Nat) :
    client_control_t → List (List GateCall) → List Action × WaitResult
  | c, [] =>
    if c.stopped = 1 then ([.read_stopped c.stopped, .cond_wait_sleep], .blocked waits)
    else ([.read_stopped c.stopped], .returned waits c)
  | c, calls :: wakeups =>
    if c.stopped = 1 then
      let r := client_control_wait_loop (waits + 1) (gate_run c calls) wakeups
      (.read_stopped c.stopped :: .cond_wait_sleep :: .cond_wait_wake :: r.1, r.2)
    else ([.read_stopped c.stopped], .returned waits c)

/-- The function `client_control_wait` (lines 75-85) run by thread `t`. -/
def client_control_wait (c : client_control_t) (wakeups : List (List GateCall))
    (t : Thread) : Thread × WaitResult :=
  let t1 := pthread_cleanup_push (.pthread_mutex_unlock .go_mutex) (t.emit [.lock .go_mutex])
  let r := client_control_wait_loop 0 c wakeups
  match r.2 with
  | .returned waits c1 =>
    ((pthread_cleanup_pop 1 false (t1.emit r.1)).1, .returned waits c1)
  | .blocked waits => (t1.emit r.1, .blocked waits)

/-- What a worker meets while it serves its client: the stream ends (or fails),
the thread is cancelled inside `comm_serve`, or a command arrives.  For a
command, `c_vars` is the state of the gate when the worker tests it,
`wakeups` the gate calls during each wait, and `interpret_cancelled` tells
whether the thread is cancelled inside `interpret_command`.  A thread still
inside `pthread_cond_wait` when `wakeups` is used up is cancelled there.
When the stream ends, `shutdown_cancelled` tells whether a cancellation
request is pending by then and is acted upon in `comm_shutdown`, which
`thread_cleanup` calls after line 186 has popped the handler.
Cancellation is deferred: a request is acted upon at these points only
(`comm_serve`, `pthread_cond_wait`, `interpret_command`, `comm_shutdown`). -/
inductive Run where
  | stream_end (shutdown_cancelled : Bool)
  | serve_cancelled
  | command (c_vars : client_control_t) (wakeups : List (List GateCall))
      (interpret_cancelled : Bool) (rest : Run)
deriving Repr

/-- How a thread function ends. -/
inductive ThreadExit where
  | returned (value : Int)
  | cancelled
deriving DecidableEq, Repr

/-- How the serve loop ends: it is left through its test (with what will
happen in `comm_shutdown` afterwards), or the thread is cancelled in it. -/
inductive LoopExit where
  | left (shutdown_cancelled : Bool)
  | cancelled
deriving DecidableEq, Repr

/-- The serve loop of `run_client` (lines 178-183). -/
def run_client_loop (client : Ptr) : Run → Thread → Thread × LoopExit
  | .stream_end shutdown_cancelled, t =>
    (t.emit [.comm_serve client], .left shutdown_cancelled)
  | .serve_cancelled, t => (pthread_cancelled (t.emit [.comm_serve client]), .cancelled)
  | .command c wakeups interpret_cancelled rest, t =>
    match client_control_wait c wakeups (t.emit [.comm_serve client]) with
    | (t1, .blocked _) => (pthread_cancelled (t1.emit [.cond_wait_wake]), .cancelled)
    | (t1, .returned _ _) =>
      let t2 := t1.emit [.interpret_command]
      if interpret_cancelled then (pthread_cancelled t2, .cancelled)
      else run_client_loop client rest t2

/-- The function `run_client` (lines 139-189): how the thread ends and the
actions it performs, given the state `s` at its accepting check. -/
def run_client (s : Server) (arg : Ptr) (run : Run) : ThreadExit × List Action :=
  if s.accepting_clients = 0 then (.returned 1, [])
  else
    let client := arg
    let t0 : Thread := { cleanup_stack := [], trace := [] }
    let t1 := t0.emit [.lock .thread_list_mutex, .list_insert client,
      .unlock .thread_list_mutex,
      .lock .server_mutex, .count_increment, .unlock .server_mutex]
    let t2 := pthread_cleanup_push (.thread_cleanup client) t1
    match run_client_loop client run t2 with
    | (t3, .left shutdown_cancelled) =>
      -- pthread_cleanup_pop(1); return NULL;
      match pthread_cleanup_pop 1 shutdown_cancelled t3 with
      | (t4, true) => (.cancelled, t4.trace)
      | (t4, false) => (.returned 0, t4.trace)
    | (t3, .cancelled) => (.cancelled, t3.trace)

/-- Whether the run ends with `thread_cleanup` cut inside `comm_shutdown`: the
serve loop is left through its test and the pending request is acted upon. -/
def Run.cleanup_cut : Run → Bool
  | .stream_end shutdown_cancelled => shutdown_cancelled
  | .serve_cancelled => false
  | .command c wakeups interpret_cancelled rest =>
    match (client_control_wait_loop 0 c wakeups).2 with
    | .blocked _ => false
    | .returned _ _ => if interpret_cancelled then false else rest.cleanup_cut

/-! ## Mass cancellation -/

/-- The loop of `delete_all` (lines 201-205) from `curr`, at most `fuel`
iterations: the cancellation requests issued, or `none` when the loop has not
ended after `fuel` iterations or dereferences an unallocated block. -/
def delete_all_loop (h : Heap) : Nat → Option Ptr → Option (List Action)
  | _, none => some []
  | 0, some _ => none
  | fuel + 1, some curr =>
    match h curr with
    | none => none
    | some c =>
      -- temp = curr->next; pthread_cancel(curr->thread); curr = temp;
      (delete_all_loop h fuel c.next).map (fun l => .pthread_cancel c.thread :: l)

/-- The function `delete_all` (lines 195-207): the state it leaves and the
actions it performs. -/
def delete_all (fuel : Nat) (s : Server) : Option (Server × List Action) :=
  (delete_all_loop s.heap fuel s.thread_list_head).map
    (fun cancels => (s, [.lock .server_mutex] ++ cancels ++ [.unlock .server_mutex]))

/-- The chain of blocks from `start` to `NULL` along `next` links is `l`
(addresses with their contents). -/
def Chain (h : Heap) : Option Ptr → List (Ptr × client_t) → Prop
  | none, [] => True
  | some p, x :: l => x.1 = p ∧ h p = some x.2 ∧ Chain h x.2.next l
  | none, _ :: _ => False
  | some _, [] => False

/-! ## Orchestrator loop -/

/-- The constant `EXIT_FAILURE` of the C library. -/
def EXIT_FAILURE : Int := 1

/-- How one pass through the input loop of `main` ends. -/
inductive MainResult where
  /-- The body ran to line 405; the loop reads the next command. -/
  | next (s : Server)
  /-- The loop was left at line 377. -/
  | shutdown (s : Server)
  /-- The process terminated with the given status. -/
  | exit (status : Int)

/-- What the environment supplies to one pass through the input loop: the
value returned by `read`, the content of `command` afterwards, the value
`db_print` returns for the file named in it, and the value `fprintf` returns. -/
structure Input where
  num_bytes_read : Int
  command : List Char
  db_print : Int
  fprintf : Int

/-- Modelled from the spec: the macro `handle_error_en`, declared in a header
that is not part of the sources at hand.  The spec calls the failures it
handles fatal (the process aborts at once with a non-zero status): the message
is reported and the process terminates with `EXIT_FAILURE`. -/
def handle_error_en (_en : Int) (msg : String) : MainResult × List String :=
  (.exit EXIT_FAILURE, [msg])

/-- One pass through the input loop of `main` (lines 371-406): the result and
the messages reported. -/
def main_loop_body (s : Server) (i : Input) : MainResult × List String :=
  if i.num_bytes_read = 0 then
    (.shutdown { s with accepting_clients := 0 }, [])
  else if i.num_bytes_read = -1 then
    if i.fprintf < 0 then handle_error_en i.fprintf "fprintf"
    else (.exit EXIT_FAILURE, ["ERROR - read error."])
  else if i.command.headD (Char.ofNat 0) = 's' then
    (.next { s with c_vars := client_control_stop s.c_vars }, [])
  else if i.command.headD (Char.ofNat 0) = 'g' then
    (.next { s with c_vars := client_control_release s.c_vars }, [])
  else if i.command.headD (Char.ofNat 0) = 'p' then
    if i.db_print ≠ 0 then handle_error_en i.db_print "db_print fopen"
    else (.next s, [])
  else (.next s, [])


/-! ## Interleaving of the orchestrator and the workers -/

/-- The threads whose steps are interleaved. -/
inductive Tid where
  | main
  | worker (client : Ptr)
deriving DecidableEq, Repr

/-- Where the orchestrator stands in `main`. -/
inductive MainPc where
  /-- In the input loop, lines 371-406. -/
  | input_loop
  /-- Before line 410. -/
  | sig_handler_destructor
  /-- Before line 413. -/
  | cancel_listener
  /-- Before line 416. -/
  | join_listener
  /-- Before line 422. -/
  | delete_all
  /-- Before line 425. -/
  | barrier_lock
  /-- At the loop test of line 426, holding server_mutex. -/
  | barrier_test
  /-- Asleep in pthread_cond_wait at line 427, server_mutex released. -/
  | barrier_wait
  /-- Before line 429. -/
  | barrier_unlock
  /-- Before line 432. -/
  | db_cleanup
  /-- After line 435. -/
  | finished
  /-- The process was terminated by exit. -/
  | exited (status : Int)
deriving DecidableEq, Repr

/-- A worker thread: its handle, what it will meet while serving, and the
actions it still has to perform (`none` before its accepting check). -/
structure Worker where
  client : Ptr
  run : Run
  todo : Option (List Action)

/-- The whole process: globals and heap, the owner of each mutex, the
orchestrator, the listener, the workers, and the actions performed so far. -/
structure Sys where
  server : Server
  owner : Mutex → Option Tid
  main_pc : MainPc
  listener_alive : Bool
  workers : List Worker
  log : List (Tid × Action)

/-- The process right after `start_listener` (line 364). -/
def Sys.init : Sys where
  server := Server.init
  owner := fun _ => none
  main_pc := .input_loop
  listener_alive := true
  workers := []
  log := []

/-- Thread `t` takes mutex `m`; not possible while the mutex is held. -/
def Sys.acquire (y : Sys) (t : Tid) (m : Mutex) : Option Sys :=
  match y.owner m with
  | none => some { y with owner := fun k => if k = m then some t else y.owner k }
  | some _ => none

/-- Mutex `m` is given back. -/
def Sys.give_back (y : Sys) (m : Mutex) : Sys :=
  { y with owner := fun k => if k = m then none else y.owner k }

/-- Thread `t` performs the action `a`. -/
def Sys.perform (y : Sys) (t : Tid) (a : Action) : Option Sys :=
  let y1 : Sys := { y with log := y.log ++ [(t, a)] }
  match a with
  | .lock m => y1.acquire t m
  | .unlock m => some (y1.give_back m)
  | .cond_wait_sleep => some (y1.give_back .go_mutex)
  | .cond_wait_wake => y1.acquire t .go_mutex
  | _ => (a.exec y.server).map (fun s1 => { y1 with server := s1 })

/-- The listener accepts a connection and calls `client_constructor`
(lines 108-126) with a fresh block: a new thread will run `run_client`. -/
def Sys.connect (y : Sys) (client : Ptr) (garbage : client_t) (run : Run) : Option Sys :=
  if y.listener_alive = true ∧ y.server.heap client = none then
    some { y with
      server := client_constructor y.server client garbage client client,
      workers := y.workers ++ [{ client := client, run := run, todo := none }] }
  else none

/-- The actions the worker of `client` has still to perform become `todo`. -/
def Sys.set_todo (y : Sys) (client : Ptr) (todo : List Action) : Sys :=
  let upd (v : Worker) : Worker :=
    if v.client = client then { v with todo := some todo } else v
  { y with workers := y.workers.map upd }

/-- The worker of `client` takes its next step: first the accepting check of
`run_client` (line 141), then its actions one by one. -/
def Sys.worker_step (y : Sys) (client : Ptr) : Option Sys :=
  match y.workers.find? (fun w => w.client = client) with
  | none => none
  | some w =>
    match w.todo with
    | none => some (y.set_todo client (run_client y.server client w.run).2)
    | some [] => none
    | some (a :: rest) =>
      (y.perform (.worker client) a).map (fun y1 => y1.set_todo client rest)

/-- The orchestrator takes its next step in `main`; `i` is what the input loop
reads (consulted in the input loop only). -/
def Sys.main_step (y : Sys) (i : Input) : Option Sys :=
  match y.main_pc with
  | .input_loop =>
    match (main_loop_body y.server i).1 with
    | .next s1 => some { y with server := s1 }
    | .shutdown s1 => some { y with server := s1, main_pc := .sig_handler_destructor }
    | .exit status => some { y with main_pc := .exited status }
  | .sig_handler_destructor => some { y with main_pc := .cancel_listener }
  | .cancel_listener => some { y with main_pc := .join_listener }
  | .join_listener => some { y with listener_alive := false, main_pc := .delete_all }
  | .delete_all =>
    match y.owner .server_mutex with
    | some _ => none
    | none =>
      match delete_all (y.workers.length + 1) y.server with
      | none => none
      | some r =>
        some { y with server := r.1, log := y.log ++ r.2.map (fun a => (Tid.main, a)),
                      main_pc := .barrier_lock }
  | .barrier_lock =>
    (y.perform .main (.lock .server_mutex)).map
      (fun y1 => { y1 with main_pc := .barrier_test })
  | .barrier_test =>
    -- while (s_vars.num_client_threads) pthread_cond_wait(...)
    if y.server.s_vars.num_client_threads ≠ 0 then
      some { (y.give_back .server_mutex) with main_pc := .barrier_wait }
    else some { y with main_pc := .barrier_unlock }
  | .barrier_wait =>
    (y.acquire .main .server_mutex).map (fun y1 => { y1 with main_pc := .barrier_test })
  | .barrier_unlock =>
    (y.perform .main (.unlock .server_mutex)).map
      (fun y1 => { y1 with main_pc := .db_cleanup })
  | .db_cleanup =>
    (y.perform .main .db_cleanup).map (fun y1 => { y1 with main_pc := .finished })
  | .finished => none
  | .exited _ => none

/-- One step of a schedule. -/
inductive Sched where
  | connect (client : Ptr) (garbage : client_t) (run : Run)
  | worker (client : Ptr)
  | main (i : Input)

/-- The step relation, as a function of the scheduler's choice; `none` when
the chosen thread cannot move.  Nothing moves after `exit`. -/
def Sys.step (y : Sys) (d : Sched) : Option Sys :=
  match y.main_pc with
  | .exited _ => none
  | _ =>
    match d with
    | .connect client garbage run => y.connect client garbage run
    | .worker client => y.worker_step client
    | .main i => y.main_step i

/-- The process after a schedule. -/
def Sys.run (y : Sys) : List Sched → Option Sys
  | [] => some y
  | d :: ds => (y.step d).bind (fun y1 => y1.run ds)

/-- The worker has passed the accepting check of `run_client` and has not
completed `thread_cleanup`: it still has actions to perform. -/
def Worker.admitted_unfinished (w : Worker) : Bool :=
  match w.todo with
  | some (_ :: _) => true
  | _ => false

/-- Whether `db_cleanup` has been invoked. -/
def Sys.db_cleanup_invoked (y : Sys) : Bool :=
  y.log.any (fun e => decide (e.2 = Action.db_cleanup))


/-- Whether the input loop goes on to read the next command. -/
def MainResult.continues : MainResult → Bool
  | .next _ => true
  | _ => false

/-- Whether an action belongs to the body of `thread_cleanup`: the unlink, the
two calls of `client_destructor`, the decrement. -/
def Action.is_cleanup : Action → Bool
  | .list_unlink _ => true
  | .comm_shutdown _ => true
  | .free _ => true
  | .count_decrement => true
  | _ => false

/-- Every call of `interpret_command` in the trace comes right after the
thread left the gate, having read from `stopped` a value other than 1 at the
last loop test. -/
def gated (tr : List Action) : Prop :=
  ∀ pre post, tr = pre ++ Action.interpret_command :: post →
    ∃ pre1 v, pre = pre1 ++ [Action.read_stopped v, Action.unlock .go_mutex] ∧ v ≠ 1

/-- An action of the gate loop: a read of `stopped` or a step of
`pthread_cond_wait`. -/
def Action.is_gate : Action → Bool
  | .read_stopped _ => true
  | .cond_wait_sleep => true
  | .cond_wait_wake => true
  | _ => false

/-! ## Well-formed registries -/

/-- The doubly linked segment `l` of heap `h`: it starts at `start`, each block's
`next` is the following handle and the last block's `next` is `fin`; the first
block's `prev` is `prev` and every other block's `prev` is its predecessor. -/
def Seg (h : Heap) : Option Ptr → Option Ptr → List Ptr → Option Ptr → Prop
  | _, start, [], fin => start = fin
  | prev, start, q :: l, fin =>
    start = some q ∧ ∃ c, h q = some c ∧ c.prev = prev ∧ Seg h (some q) c.next l fin

/-- The registry is well-formed with handles `l`: a null-terminated doubly linked
list from `thread_list_head` in which the head's `prev` is `NULL` and the `prev`
of every other handle is its predecessor. -/
def well_formed (s : Server) (l : List Ptr) : Prop :=
  Seg s.heap none s.thread_list_head l none

/-- The handle before the end of `a`, or `prev` when `a` is empty. -/
def last_or (prev : Option Ptr) : List Ptr → Option Ptr
  | [] => prev
  | q :: l => last_or (some q) l

/-! ## Concrete inputs used below -/

/-- A block whose links are `NULL`. -/
def zeroed : client_t := { thread := 0, cxstr := 0, prev := none, next := none }

/-- Register A (address 1), register B (address 2), unregister B, unregister A;
both blocks are handed out by `malloc` with `NULL` links. -/
def register_AB_unregister_BA : List RegistryEvent :=
  [.register 1 zeroed, .register 2 zeroed, .unregister 2, .unregister 1]

/-- The registry holding B (address 2, head) and A (address 1, tail). -/
def registry_BA : Server :=
  { Server.init with
    heap := fun p =>
      if p = 2 then some { thread := 2, cxstr := 2, prev := none, next := some 1 }
      else if p = 1 then some { thread := 1, cxstr := 1, prev := some 2, next := none }
      else none,
    thread_list_head := some 2 }

/-- End of input on the operator channel: `read` returns 0. -/
def end_of_input : Input :=
  { num_bytes_read := 0, command := [], db_print := 0, fprintf := 0 }

/-- A client connects and its worker passes the accepting check; then the
orchestrator reads end of input and runs its whole shutdown sequence
(lines 376-432) before the worker takes another step. -/
def shutdown_race : List Sched :=
  [.connect 1 zeroed (.command { stopped := 0 } [] false (.stream_end false)), .worker 1]
    ++ List.replicate 9 (.main end_of_input)

/-- The operator types `p dump` and `db_print` fails with error 2. -/
def failing_dump : Input :=
  { num_bytes_read := 7, command := ['p', ' ', 'd', 'u', 'm', 'p', '\n'],
    db_print := 2, fprintf := 0 }

/-- The stream ends while a cancellation request is pending, and the request is
acted upon in `comm_shutdown`. -/
def stream_end_cancel_pending : Run := .stream_end true

/-- A client connects and its worker registers and finds the stream ended
(`comm_serve` returns -1); before it reaches line 186 the orchestrator reads
end of input and runs `delete_all`, which requests the cancellation of the
worker, still in the list; the worker then runs `thread_cleanup` from line
186 and acts on the request in `comm_shutdown`; the orchestrator goes to the
barrier. -/
def cancel_during_normal_exit : List Sched :=
  [.connect 1 zeroed (.stream_end true)] ++ List.replicate 8 (.worker 1)
    ++ List.replicate 5 (.main end_of_input) ++ List.replicate 4 (.worker 1)
    ++ List.replicate 4 (.main end_of_input)

/-- A worker that serves two commands, waiting at the gate for the second,
and is then cancelled inside `comm_serve`. -/
def two_commands_then_cancel : Run :=
  .command { stopped := 0 } [] false
    (.command { stopped := 1 } [[], [.stop, .release]] false .serve_cancelled)

/-- Claim C1: register A, register B, unregister B, unregister A, from the empty
registry and with blocks whose links are `NULL`.  Every registered handle has
unregistered, yet `thread_list_head` is A and the walk along `next` links
yields A: unlinking the head B left `A->prev = B`, so the unlink of A took the
end-of-list branch and did not reset the head. -/
theorem registry_head_stale_after_all_unregistered :
    (registry_run Server.init register_AB_unregister_BA).map
        (fun s => (s.thread_list_head, reachable s.heap 2 s.thread_list_head))
      = some (some 1, some [1])
    ∧ registered [] register_AB_unregister_BA = [] := by
  decide

/-- With a block whose indeterminate `next` is not `NULL`, a single registration
into the empty registry links the head to a block that is not a handle: the
walk from `thread_list_head` leaves the registered handles. -/
theorem registry_first_insert_keeps_garbage_links :
    (registry_run Server.init [.register 1 { zeroed with next := some 7 }]).map
        (fun s => (s.thread_list_head, (s.heap 1).map (fun c => c.next),
          reachable s.heap 3 s.thread_list_head))
      = some (some 1, some (some 7), none) := by
  decide

/-- Claim C5: the registry B, A (B the head) is well-formed, yet the unlink step
for B moves `thread_list_head` to A and leaves `A->prev = B`: a remaining
handle still refers to the removed one, the head has a non-null `prev`, and the
registry is not well-formed with the remaining handle A. -/
theorem unlink_head_leaves_dangling_prev :
    well_formed registry_BA [2, 1]
    ∧ (thread_cleanup_unlink registry_BA 2).map
          (fun s => (s.thread_list_head, s.heap 1, reachable s.heap 2 s.thread_list_head))
        = some (some 1,
            some { thread := 1, cxstr := 1, prev := some 2, next := none },
            some [1])
    ∧ ∃ s1, thread_cleanup_unlink registry_BA 2 = some s1 ∧ ¬ well_formed s1 [1] := by
  refine ⟨by simp [well_formed, Seg, registry_BA, Server.init], by decide,
    { registry_BA with thread_list_head := some 1 }, rfl, ?_⟩
  simp [well_formed, Seg, registry_BA, Server.init]

/-! ## Shutdown barrier counter -/

theorem delete_all_loop_of_chain (h : Heap) (l : List (Ptr × client_t)) :
    ∀ (start : Option Ptr) (fuel : Nat), Chain h start l → l.length ≤ fuel →
      delete_all_loop h fuel start
        = some (l.map (fun x => Action.pthread_cancel x.2.thread)) := by
  induction l with
  | nil =>
    intro start fuel hc _
    cases start with
    | none => cases fuel <;> rfl
    | some p => exact absurd hc (by simp [Chain])
  | cons x l ih =>
    intro start fuel hc hf
    cases start with
    | none => exact absurd hc (by simp [Chain])
    | some p =>
      obtain ⟨_, hx, hrest⟩ := hc
      cases fuel with
      | zero => simp at hf
      | succ fuel =>
        have hf1 : l.length ≤ fuel := by simpa using hf
        simp [delete_all_loop, hx, ih _ fuel hrest hf1]

theorem chain_functional (h : Heap) (l1 : List (Ptr × client_t)) :
    ∀ (start : Option Ptr) (l2 : List (Ptr × client_t)),
      Chain h start l1 → Chain h start l2 → l1 = l2 := by
  induction l1 with
  | nil =>
    intro start l2 h1 h2
    cases start with
    | none => cases l2 with
      | nil => rfl
      | cons y l2 => exact absurd h2 (by simp [Chain])
    | some p => exact absurd h1 (by simp [Chain])
  | cons x l1 ih =>
    intro start l2 h1 h2
    cases start with
    | none => exact absurd h1 (by simp [Chain])
    | some p =>
      cases l2 with
      | nil => exact absurd h2 (by simp [Chain])
      | cons y l2 =>
        obtain ⟨a1, b1, c1⟩ := h1
        obtain ⟨a2, b2, c2⟩ := h2
        have e2 : x.2 = y.2 := Option.some.inj (b1.symm.trans b2)
        have e : x = y := Prod.ext (a1.trans a2.symm) e2
        subst e
        rw [ih _ _ c1 c2]

theorem chain_suffix (h : Heap) (a : List (Ptr × client_t)) :
    ∀ (start : Option Ptr) (y : Ptr × client_t) (b : List (Ptr × client_t)),
      Chain h start (a ++ y :: b) → Chain h (some y.1) (y :: b) := by
  induction a with
  | nil =>
    intro start y b hc
    cases start with
    | none => exact absurd hc (by simp [Chain])
    | some p =>
      obtain ⟨e, hx, hrest⟩ := hc
      exact ⟨rfl, e ▸ hx, hrest⟩
  | cons x a ih =>
    intro start y b hc
    cases start with
    | none => exact absurd hc (by simp [Chain])
    | some p => exact ih _ y b hc.2.2

theorem chain_nodup (h : Heap) (l : List (Ptr × client_t)) :
    ∀ (start : Option Ptr), Chain h start l → (l.map Prod.fst).Nodup := by
  induction l with
  | nil => intro _ _; exact List.nodup_nil
  | cons x l ih =>
    intro start hc
    cases start with
    | none => exact absurd hc (by simp [Chain])
    | some p =>
      obtain ⟨e, hx, hrest⟩ := hc
      rw [List.map_cons, List.nodup_cons]
      refine ⟨?_, ih _ hrest⟩
      intro hmem
      obtain ⟨y, hy, hyx⟩ := List.mem_map.mp hmem
      obtain ⟨a, b, hab⟩ := List.append_of_mem hy
      rw [hab] at hrest
      have h1 : Chain h (some y.1) (y :: b) := chain_suffix h a _ y b hrest
      have h2 : Chain h (some y.1) (x :: l) := by
        rw [hyx]; exact ⟨rfl, e ▸ hx, hab ▸ hrest⟩
      have e3 := chain_functional h _ _ _ h1 h2
      have hl : b = l := (List.cons.inj e3).2
      have : l.length = a.length + (b.length + 1) := by rw [hab]; simp
      rw [hl] at this
      omega

/-- Claim C7: on a registry whose chain from `thread_list_head` reaches `NULL`
(`Chain`, so acyclic and null-terminated), `delete_all` terminates (any fuel
not below the length of the chain suffices) and performs exactly: lock, one
`pthread_cancel` for the thread of each handle of the chain, in list order,
unlock; nothing else, so it waits for no worker.  The state it returns is the
state it was given (head, links and `num_client_threads` unchanged), no handle
occurs twice in the chain, and on the empty registry no request is issued. -/
theorem delete_all_cancels_chain (s : Server) (l : List (Ptr × client_t)) (fuel : Nat)
    (h : Chain s.heap s.thread_list_head l) (hf : l.length ≤ fuel) :
    delete_all fuel s
        = some (s, [Action.lock .server_mutex]
                    ++ l.map (fun x => Action.pthread_cancel x.2.thread)
                    ++ [Action.unlock .server_mutex])
    ∧ (l.map Prod.fst).Nodup
    ∧ (s.thread_list_head = none →
        delete_all fuel s
          = some (s, [Action.lock .server_mutex, Action.unlock .server_mutex])) := by
  have e := delete_all_loop_of_chain s.heap l _ fuel h hf
  refine ⟨by simp [delete_all, e], chain_nodup _ l _ h, ?_⟩
  intro hn
  cases l with
  | nil => simp [delete_all, e]
  | cons x l => rw [hn] at h; exact absurd h (by simp [Chain])

theorem delete_all_cancels_chain_witness :
    delete_all 2 registry_BA
      = some (registry_BA, [Action.lock .server_mutex]
          ++ [Action.pthread_cancel 2, Action.pthread_cancel 1]
          ++ [Action.unlock .server_mutex]) :=
  (delete_all_cancels_chain registry_BA
    [(2, { thread := 2, cxstr := 2, prev := none, next := some 1 }),
     (1, { thread := 1, cxstr := 1, prev := some 2, next := none })] 2
    (by simp [Chain, registry_BA, Server.init]) (by decide)).1

/-- Claim C8: on the registry B, A the actions of `delete_all` are: lock
`server_mutex`, cancel B, cancel A, unlock `server_mutex`.  The scan runs
under the barrier lock and `thread_list_mutex` is never taken. -/
theorem delete_all_takes_server_mutex :
    (delete_all 2 registry_BA).map (fun r => r.2)
      = some [Action.lock .server_mutex, Action.pthread_cancel 2,
              Action.pthread_cancel 1, Action.unlock .server_mutex] := by
  decide

theorem delete_all_loop_only_cancels (h : Heap) (fuel : Nat) :
    ∀ (start : Option Ptr) (l : List Action), delete_all_loop h fuel start = some l →
      ∀ a ∈ l, ∃ t, a = Action.pthread_cancel t := by
  induction fuel with
  | zero =>
    intro start l e a ha
    cases start with
    | none =>
      simp only [delete_all_loop, Option.some.injEq] at e
      subst e
      simp at ha
    | some p => simp [delete_all_loop] at e
  | succ fuel ih =>
    intro start l e a ha
    cases start with
    | none =>
      simp only [delete_all_loop, Option.some.injEq] at e
      subst e
      simp at ha
    | some p =>
      simp only [delete_all_loop] at e
      cases hp : h p with
      | none => simp [hp] at e
      | some c =>
        simp only [hp] at e
        cases hr : delete_all_loop h fuel c.next with
        | none => simp [hr] at e
        | some l1 =>
          simp only [hr, Option.map_some', Option.some.injEq] at e
          subst e
          rcases List.mem_cons.mp ha with ha | ha
          · exact ⟨_, ha⟩
          · exact ih _ _ hr a ha

/-- Whatever the registry, `delete_all` never takes `thread_list_mutex` and
always takes `server_mutex`. -/
theorem delete_all_never_takes_thread_list_mutex (fuel : Nat) (s : Server)
    (r : Server × List Action) (h : delete_all fuel s = some r) :
    Action.lock .thread_list_mutex ∉ r.2 ∧ Action.lock .server_mutex ∈ r.2 := by
  unfold delete_all at h
  cases hl : delete_all_loop s.heap fuel s.thread_list_head with
  | none => simp [hl] at h
  | some cancels =>
    simp only [hl, Option.map_some', Option.some.injEq] at h
    subst h
    refine ⟨?_, by simp⟩
    intro hmem
    simp only [List.mem_append, List.mem_singleton, List.mem_cons] at hmem
    rcases hmem with (hm | hm) | hm
    · simp at hm
    · obtain ⟨t, ht⟩ := delete_all_loop_only_cancels _ _ _ _ hl _ hm
      cases ht
    · simp at hm

/-! ## Registry: the unlink step on well-formed lists -/

theorem last_or_concat (a : List Ptr) : ∀ (prev : Option Ptr) (p : Ptr),
    last_or prev (a ++ [p]) = some p := by
  induction a with
  | nil => intro prev p; rfl
  | cons q a ih => intro prev p; exact ih (some q) p

theorem seg_append (h : Heap) (a : List Ptr) :
    ∀ (prev start : Option Ptr) (b : List Ptr) (fin : Option Ptr),
      Seg h prev start (a ++ b) fin ↔
        ∃ mid, Seg h prev start a mid ∧ Seg h (last_or prev a) mid b fin := by
  induction a with
  | nil =>
    intro prev start b fin
    constructor
    · intro hs; exact ⟨start, rfl, hs⟩
    · rintro ⟨mid, h1, h2⟩
      have e : start = mid := h1
      rw [e]; exact h2
  | cons q a ih =>
    intro prev start b fin
    constructor
    · rintro ⟨hq, c, hc, hp, hrest⟩
      obtain ⟨mid, h1, h2⟩ := (ih (some q) c.next b fin).mp hrest
      exact ⟨mid, ⟨hq, c, hc, hp, h1⟩, h2⟩
    · rintro ⟨mid, ⟨hq, c, hc, hp, h1⟩, h2⟩
      exact ⟨hq, c, hc, hp, (ih (some q) c.next b fin).mpr ⟨mid, h1, h2⟩⟩

theorem seg_frame (h : Heap) (p : Ptr) (x : client_t) (l : List Ptr) :
    ∀ (prev start fin : Option Ptr), p ∉ l → Seg h prev start l fin →
      Seg (h.store p x) prev start l fin := by
  induction l with
  | nil => intro prev start fin _ hs; exact hs
  | cons q l ih =>
    intro prev start fin hp hs
    obtain ⟨hq, c, hc, hpv, hrest⟩ := hs
    have hne : q ≠ p := fun e => hp (by rw [e]; exact List.mem_cons_self _ _)
    refine ⟨hq, c, ?_, hpv, ih _ _ _ (fun hm => hp (List.mem_cons_of_mem _ hm)) hrest⟩
    simp [Heap.store, hne, hc]

theorem seg_chain (h : Heap) (l : List Ptr) :
    ∀ (prev start : Option Ptr), Seg h prev start l none →
      ∃ l1, Chain h start l1 ∧ l1.map Prod.fst = l := by
  induction l with
  | nil =>
    intro prev start hs
    have e : start = none := hs
    exact ⟨[], by rw [e]; trivial, rfl⟩
  | cons q l ih =>
    intro prev start hs
    obtain ⟨hq, c, hc, _, hrest⟩ := hs
    obtain ⟨l1, h1, h2⟩ := ih _ _ hrest
    refine ⟨(q, c) :: l1, ?_, by simp [h2]⟩
    rw [hq]
    exact ⟨rfl, hc, h1⟩

theorem seg_nodup (h : Heap) (l : List Ptr) (prev start : Option Ptr)
    (hs : Seg h prev start l none) : l.Nodup := by
  obtain ⟨l1, h1, h2⟩ := seg_chain h l prev start hs
  rw [← h2]
  exact chain_nodup h l1 start h1

/-- Unlinking a handle that is the sole member, the tail or a middle element of
a well-formed registry leaves a well-formed registry: the old list without
that handle. -/
theorem unlink_keeps_well_formed_unless_head (s : Server) (client : Ptr)
    (before after : List Ptr) (hw : well_formed s (before ++ client :: after))
    (hcase : s.thread_list_head ≠ some client ∨ (before = [] ∧ after = [])) :
    ∃ s1, thread_cleanup_unlink s client = some s1 ∧ well_formed s1 (before ++ after) := by
  have hnd : (before ++ client :: after).Nodup := seg_nodup _ _ _ _ hw
  obtain ⟨mid, hpre, hmid⟩ := (seg_append _ _ _ _ _ _).mp hw
  obtain ⟨hmc, c, hc, hcp, hpost⟩ := hmid
  rcases List.eq_nil_or_concat before with hb | ⟨front, p, hb⟩
  all_goals try rw [List.concat_eq_append] at hb
  · -- the handle is the first of the list
    subst hb
    have hhead : s.thread_list_head = some client := by
      have e : s.thread_list_head = mid := hpre
      rw [e, hmc]
    rcases hcase with hne | ⟨_, ha⟩
    · exact absurd hhead hne
    · subst ha
      have hcn : c.next = none := hpost
      have hcp0 : c.prev = none := hcp
      refine ⟨{ s with thread_list_head := none }, ?_, rfl⟩
      simp [thread_cleanup_unlink, hc, hcp0, hcn]
  · -- the handle has a predecessor `p`
    subst hb
    have hcp1 : c.prev = some p := by rw [hcp, last_or_concat]
    obtain ⟨m1, hfront, hp⟩ := (seg_append _ _ _ _ _ _).mp hpre
    obtain ⟨hm1, pc, hpc, hpcp, hpn⟩ := hp
    have hpn1 : pc.next = some client := by
      have e : pc.next = mid := hpn
      rw [e, hmc]
    have hp_front : p ∉ front := by
      intro hm
      have := (List.nodup_append.mp (List.nodup_append.mp hnd).1).2.2
      exact this hm (List.mem_singleton_self p)
    have hne_head : s.thread_list_head ≠ some client := by
      intro e
      cases front with
      | nil =>
        have e1 : s.thread_list_head = m1 := hfront
        rw [e1, hm1] at e
        have hpc' : p = client := Option.some.inj e
        have := (List.nodup_append.mp hnd).2.2
        exact this (a := client) (by simp [hpc']) (List.mem_cons_self _ _)
      | cons f front =>
        obtain ⟨hf, _⟩ := hfront
        rw [hf] at e
        have hfc : f = client := Option.some.inj e
        have := (List.nodup_append.mp hnd).2.2
        exact this (a := client) (by simp [hfc]) (List.mem_cons_self _ _)
    cases after with
    | nil =>
      -- tail
      have hcn : c.next = none := hpost
      refine ⟨{ s with heap := s.heap.store p ({ pc with next := none }) }, ?_, ?_⟩
      · simp [thread_cleanup_unlink, hc, hcp1, hcn, hpc]
      · rw [List.append_nil]
        refine (seg_append _ _ _ _ _ _).mpr ⟨m1, seg_frame _ _ _ _ _ _ _ hp_front hfront, ?_⟩
        exact ⟨hm1, { pc with next := none }, by simp [Heap.store], hpcp, rfl⟩
    | cons n after =>
      -- middle
      obtain ⟨hcn, nc, hnc, hncp, hrest⟩ := hpost
      have hnd2 : (client :: n :: after).Nodup := (List.nodup_append.mp hnd).2.1
      have hdisj := (List.nodup_append.mp hnd).2.2
      have hn_p : n ≠ p := by
        intro e
        exact hdisj (a := p) (by simp) (by rw [← e]; simp)
      have hn_front : n ∉ front := by
        intro hm
        exact hdisj (a := n) (by simp [hm]) (by simp)
      have hn_after : n ∉ after := by
        have := (List.nodup_cons.mp (List.nodup_cons.mp hnd2).2).1
        exact this
      have hp_after : p ∉ after := by
        intro hm
        exact hdisj (a := p) (by simp) (by simp [hm])
      refine ⟨{ s with heap := Heap.store (Heap.store s.heap p
                                  ({ pc with next := some n })) n
                                  ({ nc with prev := some p }) }, ?_, ?_⟩
      · have h1n : (s.heap.store p ({ pc with next := some n })) n = some nc := by
          simp [Heap.store, hn_p, hnc]
        simp [thread_cleanup_unlink, hc, hcp1, hcn, hne_head, hpc, h1n]
      · show Seg _ none s.thread_list_head ((front ++ [p]) ++ n :: after) none
        refine (seg_append _ _ _ _ _ _).mpr ⟨some n, ?_, ?_⟩
        · refine (seg_append _ _ _ _ _ _).mpr ⟨m1, ?_, ?_⟩
          · exact seg_frame _ _ _ _ _ _ _ hn_front
              (seg_frame _ _ _ _ _ _ _ hp_front hfront)
          · exact ⟨hm1, { pc with next := some n },
              by simp [Heap.store, Ne.symm hn_p], hpcp, rfl⟩
        · rw [last_or_concat]
          refine ⟨rfl, { nc with prev := some p }, by simp [Heap.store], rfl, ?_⟩
          exact seg_frame _ _ _ _ _ _ _ hn_after (seg_frame _ _ _ _ _ _ _ hp_after hrest)

/-- Unlinking the head of a well-formed registry with at least two handles
changes only `thread_list_head`: the blocks are left as they were, so the new
head keeps its `prev` link to the removed handle. -/
theorem unlink_head_changes_only_head (s : Server) (client n : Ptr) (after : List Ptr)
    (hw : well_formed s (client :: n :: after)) :
    thread_cleanup_unlink s client = some { s with thread_list_head := some n }
    ∧ ∃ nc, s.heap n = some nc ∧ nc.prev = some client := by
  obtain ⟨hh, c, hc, _, hn, nc, hnc, hncp, _⟩ := hw
  refine ⟨?_, nc, hnc, hncp⟩
  cases hp : c.prev <;> simp [thread_cleanup_unlink, hc, hp, hn, hh]

theorem unlink_keeps_well_formed_unless_head_witness :
    ∃ s1, thread_cleanup_unlink registry_BA 1 = some s1 ∧ well_formed s1 ([2] ++ []) :=
  unlink_keeps_well_formed_unless_head registry_BA 1 [2] []
    (by simp [well_formed, Seg, registry_BA, Server.init])
    (Or.inl (by simp [registry_BA, Server.init]))

theorem unlink_head_changes_only_head_witness :
    ∃ nc, registry_BA.heap 1 = some nc ∧ nc.prev = some 2 :=
  (unlink_head_changes_only_head registry_BA 2 1 []
    (by simp [well_formed, Seg, registry_BA, Server.init])).2

/-! ## Gate and worker run -/

theorem gate_run_append (calls : List GateCall) :
    ∀ (c : client_control_t) (k : GateCall),
      gate_run c (calls ++ [k]) = k.apply (gate_run c calls) := by
  induction calls with
  | nil => intro c k; rfl
  | cons a calls ih => intro c k; exact ih (a.apply c) k

theorem gate_run_last (calls : List GateCall) :
    ∀ (c : client_control_t),
      (gate_run c calls).stopped =
        match calls.getLast? with
        | some .stop => 1
        | some .release => 0
        | none => c.stopped := by
  induction calls using List.reverseRecOn with
  | nil => intro c; rfl
  | append_singleton calls k _ =>
    intro c
    rw [gate_run_append, List.getLast?_append]
    cases k <;> rfl

theorem gate_run_binary (calls : List GateCall) :
    ∀ (c : client_control_t), (c.stopped = 0 ∨ c.stopped = 1) →
      ((gate_run c calls).stopped = 0 ∨ (gate_run c calls).stopped = 1) := by
  induction calls with
  | nil => intro c h; exact h
  | cons k calls ih =>
    intro c _
    apply ih
    cases k
    · right; rfl
    · left; rfl

theorem wait_loop_open (waits : Nat) (c : client_control_t)
    (wakeups : List (List GateCall)) (h : c.stopped ≠ 1) :
    client_control_wait_loop waits c wakeups
      = ([Action.read_stopped c.stopped], WaitResult.returned waits c) := by
  cases wakeups <;> simp [client_control_wait_loop, h]

theorem wait_loop_closed_nil (waits : Nat) (c : client_control_t) (h : c.stopped = 1) :
    client_control_wait_loop waits c []
      = ([Action.read_stopped c.stopped, Action.cond_wait_sleep],
          WaitResult.blocked waits) := by
  simp [client_control_wait_loop, h]

theorem wait_loop_closed_cons (waits : Nat) (c : client_control_t)
    (calls : List GateCall) (wakeups : List (List GateCall)) (h : c.stopped = 1) :
    client_control_wait_loop waits c (calls :: wakeups)
      = (Action.read_stopped c.stopped :: Action.cond_wait_sleep :: Action.cond_wait_wake
            :: (client_control_wait_loop (waits + 1) (gate_run c calls) wakeups).1,
          (client_control_wait_loop (waits + 1) (gate_run c calls) wakeups).2) := by
  simp [client_control_wait_loop, h]

theorem wait_loop_spec (wakeups : List (List GateCall)) :
    ∀ (waits : Nat) (c : client_control_t),
      (∀ a ∈ (client_control_wait_loop waits c wakeups).1, a.is_gate = true)
      ∧ (∀ n c1, (client_control_wait_loop waits c wakeups).2 = WaitResult.returned n c1 →
          c1.stopped ≠ 1 ∧ waits ≤ n ∧ (c.stopped = 1 → waits < n)
          ∧ ((c.stopped = 0 ∨ c.stopped = 1) → c1.stopped = 0)
          ∧ ∃ tr, (client_control_wait_loop waits c wakeups).1
                    = tr ++ [Action.read_stopped c1.stopped]
                  ∧ ∀ a ∈ tr, a.is_gate = true) := by
  have open_case : ∀ (ws : List (List GateCall)) (waits : Nat) (c : client_control_t),
      c.stopped ≠ 1 →
      (∀ a ∈ (client_control_wait_loop waits c ws).1, a.is_gate = true)
      ∧ (∀ n c1, (client_control_wait_loop waits c ws).2 = WaitResult.returned n c1 →
          c1.stopped ≠ 1 ∧ waits ≤ n ∧ (c.stopped = 1 → waits < n)
          ∧ ((c.stopped = 0 ∨ c.stopped = 1) → c1.stopped = 0)
          ∧ ∃ tr, (client_control_wait_loop waits c ws).1
                    = tr ++ [Action.read_stopped c1.stopped]
                  ∧ ∀ a ∈ tr, a.is_gate = true) := by
    intro ws waits c hs
    rw [wait_loop_open waits c ws hs]
    refine ⟨?_, ?_⟩
    · intro a ha
      simp only [List.mem_singleton] at ha
      subst ha; rfl
    · intro n c1 e
      simp only [WaitResult.returned.injEq] at e
      obtain ⟨e1, e2⟩ := e
      subst e1; subst e2
      refine ⟨hs, le_refl _, fun h => absurd h hs, ?_, [], rfl, by simp⟩
      intro hb; rcases hb with hb | hb
      · exact hb
      · exact absurd hb hs
  induction wakeups with
  | nil =>
    intro waits c
    by_cases hs : c.stopped = 1
    · rw [wait_loop_closed_nil waits c hs]
      refine ⟨?_, ?_⟩
      · intro a ha
        simp only [List.mem_cons, List.mem_singleton] at ha
        rcases ha with ha | ha | ha
        · subst ha; rfl
        · subst ha; rfl
        · simp at ha
      · intro n c1 e; simp at e
    · exact open_case [] waits c hs
  | cons calls wakeups ih =>
    intro waits c
    by_cases hs : c.stopped = 1
    · obtain ⟨i1, i3⟩ := ih (waits + 1) (gate_run c calls)
      rw [wait_loop_closed_cons waits c calls wakeups hs]
      refine ⟨?_, ?_⟩
      · intro a ha
        simp only [List.mem_cons] at ha
        rcases ha with ha | ha | ha | ha
        · subst ha; rfl
        · subst ha; rfl
        · subst ha; rfl
        · exact i1 a ha
      · intro n c1 e
        obtain ⟨j1, j2, _, j4, tr, j5, j6⟩ := i3 n c1 e
        refine ⟨j1, by omega, fun _ => by omega, ?_, ?_⟩
        · intro _
          exact j4 (gate_run_binary calls c (Or.inr hs))
        · refine ⟨Action.read_stopped c.stopped :: Action.cond_wait_sleep
              :: Action.cond_wait_wake :: tr, ?_, ?_⟩
          · simp only [j5]; rfl
          · intro a ha
            simp only [List.mem_cons] at ha
            rcases ha with ha | ha | ha | ha
            · subst ha; rfl
            · subst ha; rfl
            · subst ha; rfl
            · exact j6 a ha
    · exact open_case (calls :: wakeups) waits c hs

theorem gate_action_plain (a : Action) (h : a.is_gate = true) :
    a.is_cleanup = false ∧ a ≠ Action.interpret_command := by
  cases a <;> simp [Action.is_gate, Action.is_cleanup] at h ⊢

theorem gated_append (tr ext : List Action) (h : gated tr)
    (hext : ∀ a ∈ ext, a ≠ Action.interpret_command) : gated (tr ++ ext) := by
  intro pre post e
  rcases List.append_eq_append_iff.mp e with ⟨a1, _, h2⟩ | ⟨c1, h1, h2⟩
  · exact absurd rfl (hext Action.interpret_command (by rw [h2]; simp))
  · cases c1 with
    | nil =>
      simp only [List.nil_append] at h2
      exact absurd rfl (hext Action.interpret_command (by rw [← h2]; simp))
    | cons x c1 =>
      simp only [List.cons_append, List.cons.injEq] at h2
      obtain ⟨hx, _⟩ := h2
      subst hx
      exact h pre c1 h1

theorem gated_interpret (tr : List Action) (v : Int) (hv : v ≠ 1)
    (h : gated (tr ++ [Action.read_stopped v, Action.unlock .go_mutex])) :
    gated (tr ++ [Action.read_stopped v, Action.unlock .go_mutex]
            ++ [Action.interpret_command]) := by
  intro pre post e
  rcases List.append_eq_append_iff.mp e with ⟨a1, h1, h2⟩ | ⟨c1, h1, h2⟩
  · cases a1 with
    | nil => exact ⟨tr, v, by simpa using h1, hv⟩
    | cons x a1 =>
      have := congrArg List.length h2
      simp at this
  · cases c1 with
    | nil => exact ⟨tr, v, by simpa using h1.symm, hv⟩
    | cons x c1 =>
      simp only [List.cons_append, List.cons.injEq] at h2
      obtain ⟨hx, _⟩ := h2
      subst hx
      exact h pre c1 h1

theorem client_control_wait_eq (c : client_control_t) (wakeups : List (List GateCall))
    (t : Thread) :
    client_control_wait c wakeups t =
      match (client_control_wait_loop 0 c wakeups).2 with
      | .returned waits c1 =>
        ({ cleanup_stack := t.cleanup_stack,
           trace := t.trace ++ [Action.lock .go_mutex]
                      ++ (client_control_wait_loop 0 c wakeups).1
                      ++ [Action.unlock .go_mutex] }, .returned waits c1)
      | .blocked waits =>
        ({ cleanup_stack := Handler.pthread_mutex_unlock .go_mutex :: t.cleanup_stack,
           trace := t.trace ++ [Action.lock .go_mutex]
                      ++ (client_control_wait_loop 0 c wakeups).1 }, .blocked waits) := by
  cases h : (client_control_wait_loop 0 c wakeups).2 <;>
    simp [client_control_wait, h, pthread_cleanup_pop, pthread_cleanup_push,
      Thread.emit, Handler.run, Handler.ends_thread]

theorem thread_cleanup_plain (client : Ptr) (cut : Bool) :
    ∀ a ∈ thread_cleanup client cut, a ≠ Action.interpret_command := by
  cases cut <;> simp [thread_cleanup]

theorem run_client_loop_spec (client : Ptr) (run : Run) :
    ∀ (t : Thread), t.cleanup_stack = [Handler.thread_cleanup client] → gated t.trace →
      ∃ ext, (∀ a ∈ ext, a.is_cleanup = false) ∧ gated (t.trace ++ ext) ∧
        (((run_client_loop client run t).2 = LoopExit.left run.cleanup_cut ∧
            (run_client_loop client run t).1
              = { cleanup_stack := [Handler.thread_cleanup client],
                  trace := t.trace ++ ext })
         ∨ ((run_client_loop client run t).2 = LoopExit.cancelled ∧
            run.cleanup_cut = false ∧
            (run_client_loop client run t).1.trace
              = t.trace ++ ext ++ thread_cleanup client false)) := by
  induction run with
  | stream_end shutdown_cancelled =>
    intro t hst hg
    refine ⟨[Action.comm_serve client], by simp [Action.is_cleanup],
      gated_append _ _ hg (by simp), Or.inl ⟨rfl, ?_⟩⟩
    simp [run_client_loop, Thread.emit, hst]
  | serve_cancelled =>
    intro t hst hg
    refine ⟨[Action.comm_serve client], by simp [Action.is_cleanup],
      gated_append _ _ hg (by simp), Or.inr ⟨rfl, rfl, ?_⟩⟩
    simp [run_client_loop, Thread.emit, pthread_cancelled, hst, Handler.run]
  | command c wakeups icancel rest ih =>
    intro t hst hg
    obtain ⟨w1, w2⟩ := wait_loop_spec wakeups 0 c
    have hw1 : ∀ a ∈ (client_control_wait_loop 0 c wakeups).1,
        a.is_cleanup = false ∧ a ≠ Action.interpret_command :=
      fun a ha => gate_action_plain a (w1 a ha)
    rw [run_client_loop, client_control_wait_eq]
    cases hr : (client_control_wait_loop 0 c wakeups).2 with
    | blocked n =>
      refine ⟨[Action.comm_serve client, Action.lock .go_mutex]
                ++ (client_control_wait_loop 0 c wakeups).1
                ++ [Action.cond_wait_wake, Action.unlock .go_mutex], ?_, ?_,
              Or.inr ⟨rfl, by simp [Run.cleanup_cut, hr], ?_⟩⟩
      · exact List.forall_mem_append.mpr ⟨List.forall_mem_append.mpr
          ⟨by simp [Action.is_cleanup], fun a ha => (hw1 a ha).1⟩,
          by simp [Action.is_cleanup]⟩
      · apply gated_append _ _ hg
        exact List.forall_mem_append.mpr ⟨List.forall_mem_append.mpr
          ⟨by simp, fun a ha => (hw1 a ha).2⟩, by simp⟩
      · simp [Thread.emit, pthread_cancelled, hst, Handler.run]
    | returned n c1 =>
      obtain ⟨hc1, _, _, _, tr, htr, htr2⟩ := w2 n c1 hr
      have hplain : ∀ a ∈ [Action.comm_serve client, Action.lock .go_mutex] ++ tr,
          a.is_cleanup = false ∧ a ≠ Action.interpret_command :=
        List.forall_mem_append.mpr
          ⟨by simp [Action.is_cleanup], fun a ha => gate_action_plain a (htr2 a ha)⟩
      have hg1 : gated (t.trace ++ ([Action.comm_serve client, Action.lock .go_mutex] ++ tr)
          ++ [Action.read_stopped c1.stopped, Action.unlock .go_mutex]
          ++ [Action.interpret_command]) := by
        apply gated_interpret _ _ hc1
        apply gated_append _ _ (gated_append _ _ hg (fun a ha => (hplain a ha).2))
        simp
      have hext0 : ∀ a ∈ [Action.comm_serve client, Action.lock .go_mutex] ++ tr
          ++ [Action.read_stopped c1.stopped, Action.unlock .go_mutex,
              Action.interpret_command], a.is_cleanup = false :=
        List.forall_mem_append.mpr
          ⟨fun a ha => (hplain a ha).1, by simp [Action.is_cleanup]⟩
      have htrace : t.trace ++ [Action.comm_serve client] ++ [Action.lock .go_mutex]
            ++ (client_control_wait_loop 0 c wakeups).1 ++ [Action.unlock .go_mutex]
            ++ [Action.interpret_command]
          = t.trace ++ ([Action.comm_serve client, Action.lock .go_mutex] ++ tr
              ++ [Action.read_stopped c1.stopped, Action.unlock .go_mutex,
                  Action.interpret_command]) := by
        rw [htr]; simp
      have hg2 : gated (t.trace ++ ([Action.comm_serve client, Action.lock .go_mutex] ++ tr
              ++ [Action.read_stopped c1.stopped, Action.unlock .go_mutex,
                  Action.interpret_command])) := by
        have e : t.trace ++ ([Action.comm_serve client, Action.lock .go_mutex] ++ tr
              ++ [Action.read_stopped c1.stopped, Action.unlock .go_mutex,
                  Action.interpret_command])
            = t.trace ++ ([Action.comm_serve client, Action.lock .go_mutex] ++ tr)
          ++ [Action.read_stopped c1.stopped, Action.unlock .go_mutex]
          ++ [Action.interpret_command] := by simp
        rw [e]; exact hg1
      cases icancel with
      | true =>
        refine ⟨_, hext0, hg2, Or.inr ⟨rfl, by simp [Run.cleanup_cut, hr], ?_⟩⟩
        simp only [Thread.emit, pthread_cancelled, hst, Handler.run, if_true,
          List.map_cons, List.map_nil, List.flatten_cons, List.flatten_nil,
          List.append_nil]
        rw [htrace]
      | false =>
        simp only [Thread.emit, Bool.false_eq_true, if_false]
        rw [htrace]
        obtain ⟨ext1, k1, k2, k3⟩ := ih
          { cleanup_stack := t.cleanup_stack,
            trace := t.trace ++ ([Action.comm_serve client, Action.lock .go_mutex] ++ tr
              ++ [Action.read_stopped c1.stopped, Action.unlock .go_mutex,
                  Action.interpret_command]) } hst hg2
        refine ⟨([Action.comm_serve client, Action.lock .go_mutex] ++ tr
              ++ [Action.read_stopped c1.stopped, Action.unlock .go_mutex,
                  Action.interpret_command]) ++ ext1, ?_, ?_, ?_⟩
        · intro a ha
          rw [List.mem_append] at ha
          rcases ha with ha | ha
          · exact hext0 a ha
          · exact k1 a ha
        · rw [← List.append_assoc]; exact k2
        · have hcut : (Run.command c wakeups false rest).cleanup_cut = rest.cleanup_cut := by
            simp [Run.cleanup_cut, hr]
          rcases k3 with ⟨k4, k5⟩ | ⟨k4, k6, k5⟩
          · exact Or.inl ⟨by rw [k4, hcut], by rw [k5, List.append_assoc]⟩
          · exact Or.inr ⟨k4, by rw [hcut, k6], by rw [k5]; simp⟩

theorem gated_nil_actions (l : List Action) (h : ∀ a ∈ l, a ≠ Action.interpret_command) :
    gated l := by
  have g0 : gated [] := by
    intro pre post e
    exact absurd (congrArg List.length e) (by simp; omega)
  simpa using gated_append [] l g0 h

theorem run_client_accepted (s : Server) (arg : Ptr) (run : Run)
    (h : s.accepting_clients ≠ 0) :
    ∃ pre, (run_client s arg run).2 = pre ++ thread_cleanup arg run.cleanup_cut
      ∧ (∀ a ∈ pre, a.is_cleanup = false)
      ∧ gated (run_client s arg run).2 := by
  have hst : ({ cleanup_stack := [Handler.thread_cleanup arg],
                trace := [Action.lock .thread_list_mutex, Action.list_insert arg,
                  Action.unlock .thread_list_mutex, Action.lock .server_mutex,
                  Action.count_increment, Action.unlock .server_mutex] } : Thread).cleanup_stack
      = [Handler.thread_cleanup arg] := rfl
  obtain ⟨ext, k1, k2, k3⟩ := run_client_loop_spec arg run _ hst
    (gated_nil_actions _ (by simp))
  have hrun : run_client s arg run =
      match run_client_loop arg run
        { cleanup_stack := [Handler.thread_cleanup arg],
          trace := [Action.lock .thread_list_mutex, Action.list_insert arg,
            Action.unlock .thread_list_mutex, Action.lock .server_mutex,
            Action.count_increment, Action.unlock .server_mutex] } with
      | (t3, .left shutdown_cancelled) =>
        match pthread_cleanup_pop 1 shutdown_cancelled t3 with
        | (t4, true) => (ThreadExit.cancelled, t4.trace)
        | (t4, false) => (ThreadExit.returned 0, t4.trace)
      | (t3, .cancelled) => (ThreadExit.cancelled, t3.trace) := by
    simp [run_client, h, Thread.emit, pthread_cleanup_push]
  have htrace : (run_client s arg run).2
      = [Action.lock .thread_list_mutex, Action.list_insert arg,
            Action.unlock .thread_list_mutex, Action.lock .server_mutex,
            Action.count_increment, Action.unlock .server_mutex] ++ ext
          ++ thread_cleanup arg run.cleanup_cut := by
    rcases k3 with ⟨k4, k5⟩ | ⟨k4, k6, k5⟩
    · rw [hrun]
      generalize run_client_loop arg run _ = r at k4 k5
      obtain ⟨r1, r2⟩ := r
      simp only at k4 k5
      subst k4; subst k5
      cases run.cleanup_cut <;>
        simp [pthread_cleanup_pop, pthread_cancelled, Handler.run, Handler.ends_thread]
    · rw [hrun]
      generalize run_client_loop arg run _ = r at k4 k5
      obtain ⟨r1, r2⟩ := r
      simp only at k4 k5
      subst k4
      simp [k5, k6]
  refine ⟨[Action.lock .thread_list_mutex, Action.list_insert arg,
            Action.unlock .thread_list_mutex, Action.lock .server_mutex,
            Action.count_increment, Action.unlock .server_mutex] ++ ext, htrace, ?_, ?_⟩
  · exact List.forall_mem_append.mpr ⟨by simp [Action.is_cleanup], k1⟩
  · rw [htrace]
    exact gated_append _ _ k2 (thread_cleanup_plain arg _)

/-- Every run of `run_client` that passes the accepting check enters
`thread_cleanup` for its own handle exactly once, as the last thing it does:
its trace is a part free of cleanup actions followed by the actions of
`thread_cleanup arg`.  The handler is complete (unlink, `comm_shutdown`, `free`,
decrement) unless the run leaves the serve loop at stream end and a pending
cancellation request is acted upon in `comm_shutdown`.  A run rejected by the
accepting check performs no action at all. -/
theorem thread_cleanup_entered_exactly_once (s : Server) (arg : Ptr) (run : Run) :
    (s.accepting_clients ≠ 0 →
      (∃ pre, (run_client s arg run).2 = pre ++ thread_cleanup arg run.cleanup_cut
          ∧ ∀ a ∈ pre, a.is_cleanup = false)
      ∧ (run.cleanup_cut = false →
          (run_client s arg run).2.filter Action.is_cleanup
            = [Action.list_unlink arg, Action.comm_shutdown arg, Action.free arg,
               Action.count_decrement])
      ∧ (run.cleanup_cut = true →
          (run_client s arg run).2.filter Action.is_cleanup
            = [Action.list_unlink arg, Action.comm_shutdown arg]))
    ∧ (s.accepting_clients = 0 → (run_client s arg run).2 = []) := by
  refine ⟨?_, ?_⟩
  · intro h
    obtain ⟨pre, e, hpre, _⟩ := run_client_accepted s arg run h
    have hnil : pre.filter Action.is_cleanup = [] :=
      List.filter_eq_nil_iff.mpr (fun a ha => by simp [hpre a ha])
    refine ⟨⟨pre, e, hpre⟩, ?_, ?_⟩
    · intro hc
      rw [e, List.filter_append, hnil, hc]
      rfl
    · intro hc
      rw [e, List.filter_append, hnil, hc]
      rfl
  · intro h
    simp [run_client, h]

theorem thread_cleanup_entered_exactly_once_witness :
    (run_client Server.init 1 two_commands_then_cancel).2.filter Action.is_cleanup
      = [Action.list_unlink 1, Action.comm_shutdown 1, Action.free 1,
         Action.count_decrement] :=
  ((thread_cleanup_entered_exactly_once Server.init 1 two_commands_then_cancel).1
    (by decide)).2.1 (by decide)

/-- Claim C3: the client closes its stream (`comm_serve` returns -1) while a
cancellation request from `delete_all` is pending; line 186 pops the handler
and calls `thread_cleanup`, and the request is acted upon in `comm_shutdown`.
The run unlinks the handle and enters `client_destructor`, but `free` and the
decrement of the count are performed zero times: the block stays allocated
and `num_client_threads` stays 1 after the worker has ended.  In the schedule
`cancel_during_normal_exit` the request comes from `delete_all` during
shutdown; the worker has ended, the count is still 1 and the orchestrator
sleeps at the barrier without reaching `db_cleanup`. -/
theorem cleanup_cut_in_comm_shutdown :
    run_client Server.init 1 stream_end_cancel_pending
      = (ThreadExit.cancelled,
          [Action.lock .thread_list_mutex, Action.list_insert 1,
           Action.unlock .thread_list_mutex,
           Action.lock .server_mutex, Action.count_increment, Action.unlock .server_mutex,
           Action.comm_serve 1,
           Action.lock .thread_list_mutex, Action.list_unlink 1,
           Action.unlock .thread_list_mutex,
           Action.comm_shutdown 1])
    ∧ (run_client Server.init 1 stream_end_cancel_pending).2.count Action.count_decrement = 0
    ∧ (run_client Server.init 1 stream_end_cancel_pending).2.count (Action.free 1) = 0
    ∧ (exec_all (client_constructor Server.init 1 zeroed 1 1)
          (run_client Server.init 1 stream_end_cancel_pending).2).map
        (fun s => (s.thread_list_head, s.s_vars.num_client_threads, (s.heap 1).isSome))
      = some (none, 1, true)
    ∧ (Sys.init.run cancel_during_normal_exit).map
        (fun y => (y.workers.map (fun w => w.todo), y.server.s_vars.num_client_threads,
          y.main_pc, y.db_cleanup_invoked,
          y.log.filter (fun e => decide (e.2 = Action.pthread_cancel 1)
            || decide (e.2 = Action.comm_shutdown 1))))
      = some ([some []], 1, MainPc.barrier_wait, false,
          [(Tid.main, Action.pthread_cancel 1), (Tid.worker 1, Action.comm_shutdown 1)]) := by
  refine ⟨by decide, by decide, by decide, by decide, rfl⟩

/-- Claim C6: when `accepting_clients` is 0, `run_client` returns 1 and performs
no action (no insertion, no `comm_serve`, no `interpret_command`, no
`thread_cleanup`), so the globals and the heap are left as they were. -/
theorem run_client_rejects_when_not_accepting (s : Server) (arg : Ptr) (run : Run)
    (h : s.accepting_clients = 0) :
    run_client s arg run = (ThreadExit.returned 1, [])
    ∧ exec_all s (run_client s arg run).2 = some s := by
  have e : run_client s arg run = (ThreadExit.returned 1, []) := by
    simp [run_client, h]
  exact ⟨e, by rw [e]; rfl⟩

theorem run_client_rejects_when_not_accepting_witness :
    run_client { Server.init with accepting_clients := 0 } 1 two_commands_then_cancel
      = (ThreadExit.returned 1, []) :=
  (run_client_rejects_when_not_accepting { Server.init with accepting_clients := 0 } 1
    two_commands_then_cancel rfl).1


theorem wait_result_eq (c : client_control_t) (wakeups : List (List GateCall)) (t : Thread) :
    (client_control_wait c wakeups t).2 = (client_control_wait_loop 0 c wakeups).2 := by
  rw [client_control_wait_eq]
  cases (client_control_wait_loop 0 c wakeups).2 <;> rfl

/-- Claim C9: after any sequence of `client_control_stop` and
`client_control_release` calls from `stopped = 0`, `stopped` is 1 if the last
call was stop and 0 otherwise; stop is idempotent and stop followed by release
gives `stopped = 0`.  A worker calling `client_control_wait` in that state
returns without waiting exactly when `stopped` is 0; whenever it returns, the
gate it leaves has `stopped = 0`, and it has waited exactly when `stopped` was
1.  In every trace of `run_client`, each `interpret_command` comes right after
the thread read a value other than 1 from `stopped` and released `go_mutex`. -/
theorem gate_last_writer_wins (calls : List GateCall) (wakeups : List (List GateCall))
    (t : Thread) :
    ((gate_run { stopped := 0 } calls).stopped =
        match calls.getLast? with
        | some .stop => 1
        | _ => 0)
    ∧ client_control_stop (client_control_stop (gate_run { stopped := 0 } calls))
        = client_control_stop (gate_run { stopped := 0 } calls)
    ∧ client_control_release (client_control_stop (gate_run { stopped := 0 } calls))
        = { stopped := 0 }
    ∧ ((client_control_wait (gate_run { stopped := 0 } calls) wakeups t).2
          = WaitResult.returned 0 (gate_run { stopped := 0 } calls)
        ↔ (gate_run { stopped := 0 } calls).stopped = 0)
    ∧ (∀ n c1, (client_control_wait (gate_run { stopped := 0 } calls) wakeups t).2
          = WaitResult.returned n c1 →
        c1.stopped = 0 ∧ (0 < n ↔ (gate_run { stopped := 0 } calls).stopped = 1))
    ∧ (∀ (s : Server) (arg : Ptr) (run : Run) (pre post : List Action),
        (run_client s arg run).2 = pre ++ Action.interpret_command :: post →
        ∃ pre1 v, pre = pre1 ++ [Action.read_stopped v, Action.unlock .go_mutex] ∧ v ≠ 1) := by
  have hbin := gate_run_binary calls { stopped := 0 } (Or.inl rfl)
  obtain ⟨_, w2⟩ := wait_loop_spec wakeups 0 (gate_run { stopped := 0 } calls)
  refine ⟨?_, rfl, rfl, ?_, ?_, ?_⟩
  · rw [gate_run_last]
    cases calls.getLast? with
    | none => rfl
    | some k => cases k <;> rfl
  · rw [wait_result_eq]
    constructor
    · intro e
      obtain ⟨_, _, j3, _⟩ := w2 _ _ e
      rcases hbin with hb | hb
      · exact hb
      · exact absurd (j3 hb) (lt_irrefl 0)
    · intro h0
      rw [wait_loop_open 0 _ wakeups (by rw [h0]; decide)]
  · intro n c1 e
    rw [wait_result_eq] at e
    obtain ⟨_, _, j3, j4, _⟩ := w2 n c1 e
    refine ⟨j4 hbin, ?_, j3⟩
    intro hn
    rcases hbin with hb | hb
    · rw [wait_loop_open 0 _ wakeups (by rw [hb]; decide)] at e
      simp only [WaitResult.returned.injEq] at e
      omega
    · exact hb
  · intro s arg run pre post e
    by_cases h : s.accepting_clients = 0
    · have : (run_client s arg run).2 = [] := by simp [run_client, h]
      rw [this] at e
      exact absurd (congrArg List.length e) (by simp; omega)
    · obtain ⟨_, _, _, hg⟩ := run_client_accepted s arg run h
      exact hg pre post e

theorem gate_last_writer_wins_witness :
    (client_control_wait (gate_run { stopped := 0 } [.stop, .release, .stop]) [[.release]]
        { cleanup_stack := [], trace := [] }).2 = WaitResult.returned 1 { stopped := 0 }
    ∧ (({ stopped := 0 } : client_control_t).stopped = 0
        ∧ (0 < 1 ↔ (gate_run { stopped := 0 } [.stop, .release, .stop]).stopped = 1)) :=
  ⟨by decide,
   (gate_last_writer_wins [.stop, .release, .stop] [[.release]]
      { cleanup_stack := [], trace := [] }).2.2.2.2.1 1 { stopped := 0 } (by decide)⟩


/-- Claim C10, as amended: for an operator input whose first character is `p`,
if `db_print` returns non-zero, the pass through the input loop reports
the failure through `handle_error_en` and the process terminates with
`EXIT_FAILURE`; the loop does not read another command. -/
theorem main_loop_db_print_failure_is_fatal (s : Server) (i : Input)
    (h1 : 0 < i.num_bytes_read) (h2 : i.command.head? = some 'p') (h3 : i.db_print ≠ 0) :
    main_loop_body s i = (MainResult.exit EXIT_FAILURE, ["db_print fopen"]) := by
  have n0 : i.num_bytes_read ≠ 0 := by omega
  have n1 : i.num_bytes_read ≠ -1 := by omega
  simp [main_loop_body, n0, n1, h2, h3, handle_error_en]

/-- Claim C10 as stated fails: the operator types `p dump`, `db_print` returns 2,
and the pass through the input loop ends the process with `EXIT_FAILURE`
instead of going on to read the next command. -/
theorem main_loop_db_print_failure_stops_loop :
    failing_dump.command.head? = some 'p'
    ∧ failing_dump.db_print ≠ 0
    ∧ (main_loop_body Server.init failing_dump).1.continues = false
    ∧ main_loop_body Server.init failing_dump
        = (MainResult.exit EXIT_FAILURE, ["db_print fopen"]) := by
  refine ⟨by decide, by decide, by decide, rfl⟩

theorem main_loop_db_print_failure_is_fatal_witness :
    main_loop_body Server.init failing_dump
      = (MainResult.exit EXIT_FAILURE, ["db_print fopen"]) :=
  main_loop_db_print_failure_is_fatal Server.init failing_dump
    (by decide) (by decide) (by decide)

/-! ## Shutdown race -/

/-- Claim C4: along the schedule `shutdown_race` the orchestrator invokes
`db_cleanup` while the worker of handle 1 has passed the accepting check of
`run_client` and has not run `thread_cleanup`: the list was empty when
`delete_all` scanned it and the counter was 0 at the barrier.  Let run on, the
worker then registers, raises the counter and calls `interpret_command` after
the store was torn down. -/
theorem db_cleanup_overtakes_admitted_worker :
    (Sys.init.run shutdown_race).map
        (fun y => (y.db_cleanup_invoked, y.workers.map Worker.admitted_unfinished,
          y.server.s_vars.num_client_threads))
      = some (true, [true], 0)
    ∧ (Sys.init.run (shutdown_race ++ List.replicate 11 (.worker 1))).map
        (fun y => (y.server.s_vars.num_client_threads,
          y.log.filter (fun e => decide (e.2 = Action.db_cleanup)
            || decide (e.2 = Action.interpret_command))))
      = some (1, [(Tid.main, Action.db_cleanup),
                  (Tid.worker 1, Action.interpret_command)]) := by
  decide

end Server2
